import Mathlib

/-!
Shallow embedding of the hclust benchmark harness
(`src/bench/kodama_bench.rs`, function `main`) and verification of the
specification's claims about it.

The harness resolves configuration from environment overrides
(`BENCH_SIZE`, `BENCH_REPEATS`, `BENCH_RULE`), runs `repeats` timed
trials, each of which materializes a fresh condensed distance buffer and
invokes one external linkage entry point (`mst`, `nnchain` or `generic`),
reduces the trial durations to their minimum and prints it in
milliseconds with 11 fractional digits.

External collaborators (the kodama crate's `Method::from_str`,
`Method::into_method_chain` and the three algorithm entry points) and the
file-driven workload strategy are not part of the repository's sources;
they are modelled from the spec where needed, and each such definition is
flagged in its doc comment.

Observable behavior is modelled as an event trace (`Event`): buffer
materialization, timer start/stop, algorithm invocation and the output
line. Elapsed times are supplied by an oracle `durations : Nat → Nat`
giving each trial's measured microseconds, and random draws by an oracle
`draws : Nat → Nat → ℚ` giving each trial's stream of generated values.
-/

/-- Modelled from the spec: the linkage-rule vocabulary of the external
kodama crate (`Method`), listed in the spec's glossary: single, complete,
average, ward, centroid, median, weighted. -/
inductive Method where
  | single
  | complete
  | average
  | weighted
  | ward
  | centroid
  | median
deriving DecidableEq

/-- Modelled from the spec: the external kodama crate's string-to-rule
conversion (`Method::from_str`), defined on the recognized linkage-rule
vocabulary and failing on any other string. -/
def Method.fromStr (s : String) : Option Method :=
  match s with
  | "single" => some Method.single
  | "complete" => some Method.complete
  | "average" => some Method.average
  | "weighted" => some Method.weighted
  | "ward" => some Method.ward
  | "centroid" => some Method.centroid
  | "median" => some Method.median
  | _ => none

/-- Modelled from the spec: the chain-compatible subset of linkage rules,
those expressible via a nearest-neighbor-chain recurrence. -/
inductive MethodChain where
  | single
  | complete
  | average
  | weighted
  | ward
deriving DecidableEq

/-- Modelled from the spec: the external kodama crate's conversion from a
general linkage rule to a chain-compatible rule
(`Method::into_method_chain`), returning the empty case exactly for the
rules with no chain recurrence (centroid, median). -/
def Method.intoMethodChain : Method → Option MethodChain
  | Method.single => some MethodChain.single
  | Method.complete => some MethodChain.complete
  | Method.average => some MethodChain.average
  | Method.weighted => some MethodChain.weighted
  | Method.ward => some MethodChain.ward
  | Method.centroid => none
  | Method.median => none

/-- Rust's `str::parse::<usize>` on a list of characters: an optional
leading plus sign, then a nonempty run of decimal digits whose value fits
in 64 bits; anything else is a parse error. -/
def parseUsizeChars (cs0 : List Char) : Option Nat :=
  let cs := match cs0 with
    | '+' :: rest => rest
    | _ => cs0
  if cs.isEmpty then none
  else if cs.all Char.isDigit then
    let v := cs.foldl (fun acc c => acc * 10 + (c.toNat - 48)) 0
    if v < 2 ^ 64 then some v else none
  else none

/-- Rust's `str::parse::<usize>` as used by `val.parse::<usize>().unwrap()`
in `main` for the `BENCH_SIZE` and `BENCH_REPEATS` overrides. -/
def parseUsize (s : String) : Option Nat :=
  parseUsizeChars s.data

/-- The resolved configuration record: observation count, trial count, the
parsed linkage rule, and the raw `BENCH_RULE` string used for family
dispatch (kodama_bench.rs lines 11-27). -/
structure Config where
  size : Nat
  repeats : Nat
  rule : Method
  method : String
deriving DecidableEq

/-- Resolution of `BENCH_SIZE` (kodama_bench.rs lines 11-14): parse the
override if present, default 100; `none` is the fatal parse failure. -/
def resolveSize (env : String → Option String) : Option Nat :=
  match env "BENCH_SIZE" with
  | some v => parseUsize v
  | none => some 100

/-- Resolution of `BENCH_REPEATS` (kodama_bench.rs lines 16-19): parse the
override if present, default 1000; `none` is the fatal parse failure. -/
def resolveRepeats (env : String → Option String) : Option Nat :=
  match env "BENCH_REPEATS" with
  | some v => parseUsize v
  | none => some 1000

/-- Resolution of the linkage rule from `BENCH_RULE` (kodama_bench.rs
lines 20-23): parse the override if present, default `Ward`; `none` is the
fatal `expect("Invalid rule")` failure. -/
def resolveRule (env : String → Option String) : Option Method :=
  match env "BENCH_RULE" with
  | some v => Method.fromStr v
  | none => some Method.ward

/-- Resolution of the raw method string from `BENCH_RULE` (kodama_bench.rs
lines 24-27): the override verbatim if present, default `"generic"`. -/
def resolveMethodName (env : String → Option String) : String :=
  match env "BENCH_RULE" with
  | some v => v
  | none => "generic"

/-- The whole configuration resolution phase of `main`: all overrides must
parse or the run aborts with no configuration produced. -/
def resolveConfig (env : String → Option String) : Option Config :=
  match resolveSize env, resolveRepeats env, resolveRule env with
  | some s, some r, some ru => some (Config.mk s r ru (resolveMethodName env))
  | _, _, _ => none

/-- Rust release-mode wrapping subtraction on `usize` (64-bit), for
arguments below `2 ^ 64`. -/
def wrapSub (a b : Nat) : Nat :=
  (a + 2 ^ 64 - b) % 2 ^ 64

/-- The condensed buffer size `(size * (size - 1)) / 2` (kodama_bench.rs
line 15) with the source's `usize` semantics in release mode: the
subtraction and the product wrap modulo `2 ^ 64` (the final division by 2
cannot overflow). Whenever `size * (size - 1) < 2 ^ 64` this equals
`size * (size - 1) / 2` exactly; beyond that the program's value wraps
(and a debug build panics, see `condensedSizeChecked`). -/
def condensedSize (size : Nat) : Nat :=
  (size * wrapSub size 1 % 2 ^ 64) / 2

/-- Rust debug-mode (checked) unsigned subtraction: `none` is the
overflow panic. -/
def checkedSub (a b : Nat) : Option Nat :=
  if b ≤ a then some (a - b) else none

/-- Rust debug-mode (checked) unsigned multiplication on 64-bit values:
`none` is the overflow panic. -/
def checkedMul (a b : Nat) : Option Nat :=
  if a * b < 2 ^ 64 then some (a * b) else none

/-- The condensed-size expression `(size * (size - 1)) / 2` under Rust
debug-mode checked arithmetic: panics (returns `none`) when `size = 0`
makes `size - 1` underflow. -/
def condensedSizeChecked (size : Nat) : Option Nat :=
  match checkedSub size 1 with
  | none => none
  | some p =>
    match checkedMul size p with
    | none => none
    | some m => some (m / 2)

/-- The condensed-size expression under Rust release-mode wrapping
(modulo `2 ^ 64`) arithmetic, stated standalone; definitionally the same
computation as `condensedSize`. -/
def condensedSizeWrapping (size : Nat) : Nat :=
  (size * wrapSub size 1 % 2 ^ 64) / 2

/-- The synthetic workload strategy (kodama_bench.rs lines 31-34): start
from an empty vector and push one drawn value per loop iteration, `cs`
times; `draws` is the random-source oracle for this trial. -/
def generateCondensed (cs : Nat) (draws : Nat → ℚ) : List ℚ :=
  (List.range cs).foldl (fun buf i => buf ++ [draws i]) []

/-- The three external linkage algorithm entry points named in the
dispatch match (kodama_bench.rs lines 36-44). -/
inductive EntryPoint where
  | mst
  | nnchain
  | generic
deriving DecidableEq

/-- Observable events of a run: buffer materialization (recording the
buffer length), timer start, algorithm invocation, timer stop (recording
the elapsed microseconds), and a line written to standard output. -/
inductive Event where
  | genBuffer (len : Nat)
  | timerStart
  | invoke (e : EntryPoint)
  | timerStop (d : Nat)
  | output (line : String)
deriving DecidableEq

/-- Projection selecting algorithm-invocation events from a trace. -/
def invokedEntry : Event → Option EntryPoint
  | Event.invoke e => some e
  | _ => none

/-- Projection selecting standard-output events from a trace. -/
def outputLine : Event → Option String
  | Event.output s => some s
  | _ => none

/-- One trial of the timing loop (kodama_bench.rs lines 30-45): the fresh
buffer is materialized, the timer starts, then the dispatch match runs:
`"mst"` calls `mst`, `"chain"` converts the rule (panicking inside the
match, i.e. after the timer start, when the rule has no chain equivalent)
and calls `nnchain`, anything else calls `generic`; on return the timer
stops. Returns the trace and the recorded duration (`none` encodes the
`expect("Invalid chain rule")` panic). -/
def trialEvents (method : String) (rule : Method) (buffer : List ℚ) (d : Nat) :
    List Event × Option Nat :=
  let pre := [Event.genBuffer buffer.length, Event.timerStart]
  if method = "mst" then
    (pre ++ [Event.invoke EntryPoint.mst, Event.timerStop d], some d)
  else if method = "chain" then
    match Method.intoMethodChain rule with
    | some _ => (pre ++ [Event.invoke EntryPoint.nnchain, Event.timerStop d], some d)
    | none => (pre, none)
  else
    (pre ++ [Event.invoke EntryPoint.generic, Event.timerStop d], some d)

/-- The list of durations the oracle assigns to trials `i, i+1, ..., i+k-1`. -/
def durationsList (durations : Nat → Nat) (i k : Nat) : List Nat :=
  match k with
  | 0 => []
  | k + 1 => durations i :: durationsList durations (i + 1) k

/-- The timing loop (kodama_bench.rs lines 29-46) starting at trial index
`i` with `k` trials remaining: each iteration materializes a fresh buffer
and runs one trial; a trial panic aborts the loop, otherwise the duration
is collected. Returns the concatenated trace and the duration list
(`none` encodes a panic). -/
def runTrialsAux (method : String) (rule : Method) (cs : Nat)
    (draws : Nat → Nat → ℚ) (durations : Nat → Nat) :
    Nat → Nat → List Event × Option (List Nat)
  | _, 0 => ([], some [])
  | i, k + 1 =>
    match (trialEvents method rule (generateCondensed cs (draws i)) (durations i)).2 with
    | none => ((trialEvents method rule (generateCondensed cs (draws i)) (durations i)).1, none)
    | some d =>
      ((trialEvents method rule (generateCondensed cs (draws i)) (durations i)).1 ++
         (runTrialsAux method rule cs draws durations (i + 1) k).1,
       ((runTrialsAux method rule cs draws durations (i + 1) k).2).map (fun ds => d :: ds))

/-- Rust's `Iterator::min` over the collected durations: `none` on an
empty list, otherwise the smallest element. -/
def listMin : List Nat → Option Nat
  | [] => none
  | a :: rest =>
    match listMin rest with
    | none => some a
    | some m => some (min a m)

/-- The `w` decimal digits of `v` (most significant first), as characters. -/
def natDigitsFixed (w v : Nat) : List Char :=
  (List.range w).map (fun i => Char.ofNat (48 + v / 10 ^ (w - 1 - i) % 10))

/-- The reporter's `println!("{:.11}", (best_time as f64) / 1000.0)`
(kodama_bench.rs line 49) rendered with exact arithmetic: integer part of
`micros / 1000` milliseconds, a decimal point, then exactly 11 fractional
digits, which carry the value `(micros % 1000) * 10 ^ 8 / 10 ^ 11`
milliseconds. -/
def formatFixed11 (micros : Nat) : String :=
  toString (micros / 1000) ++ "." ++ String.mk (natDigitsFixed 11 (micros % 1000 * 10 ^ 8))

/-- The possible terminations of a run: the configuration-phase panic
(parse `unwrap` / `expect("Invalid rule")`), the in-loop
`expect("Invalid chain rule")` panic, the `.min().unwrap()` panic on an
empty duration list, and successful exit with the printed line. -/
inductive Outcome where
  | configPanic
  | chainPanic
  | minUnwrapPanic
  | ok (line : String)
deriving DecidableEq

/-- The tail of `main` after the timing loop: a loop panic propagates;
otherwise `.min()` is applied to the durations and its `unwrap` panics on
an empty list; on success the formatted best duration is printed. -/
def finishRun (evs : List Event) (res : Option (List Nat)) : List Event × Outcome :=
  match res with
  | none => (evs, Outcome.chainPanic)
  | some ds =>
    match listMin ds with
    | none => (evs, Outcome.minUnwrapPanic)
    | some best =>
      (evs ++ [Event.output (formatFixed11 best)], Outcome.ok (formatFixed11 best))

/-- The run of `main` after successful configuration resolution. -/
def runResolved (c : Config) (draws : Nat → Nat → ℚ) (durations : Nat → Nat) :
    List Event × Outcome :=
  finishRun
    (runTrialsAux c.method c.rule (condensedSize c.size) draws durations 0 c.repeats).1
    (runTrialsAux c.method c.rule (condensedSize c.size) draws durations 0 c.repeats).2

/-- The whole of `main`: configuration resolution, the timing loop, the
minimum reduction, and the output line; each abort point is a distinct
outcome. -/
def runProgram (env : String → Option String) (draws : Nat → Nat → ℚ)
    (durations : Nat → Nat) : List Event × Outcome :=
  match resolveConfig env with
  | none => ([], Outcome.configPanic)
  | some c => runResolved c draws durations

/-- The best (minimum) duration reported by the timing loop. -/
def bestTime (method : String) (rule : Method) (cs : Nat) (draws : Nat → Nat → ℚ)
    (durations : Nat → Nat) (repeats : Nat) : Option Nat :=
  ((runTrialsAux method rule cs draws durations 0 repeats).2).bind listMin

/-- Whitespace characters separating numeric tokens in file-driven mode. -/
def isWsChar (c : Char) : Bool :=
  c = ' ' || c = '\n' || c = '\t' || c = '\r'

/-- Split a character list into maximal whitespace-free tokens; `acc`
holds the (reversed) characters of the token being built. -/
def splitWsAux : List Char → List Char → List (List Char)
  | [], acc => if acc.isEmpty then [] else [acc.reverse]
  | c :: rest, acc =>
    if isWsChar c then
      if acc.isEmpty then splitWsAux rest []
      else acc.reverse :: splitWsAux rest []
    else splitWsAux rest (c :: acc)

/-- Split a character list at the first newline: the header line and the
remainder. -/
def breakAtNewline : List Char → List Char × List Char
  | [] => ([], [])
  | c :: rest =>
    if c = '\n' then ([], rest)
    else
      let p := breakAtNewline rest
      (c :: p.1, p.2)

/-- Split a character list at the first decimal point, when present. -/
def breakAtDot : List Char → List Char × Option (List Char)
  | [] => ([], none)
  | c :: rest =>
    if c = '.' then ([], some rest)
    else
      let p := breakAtDot rest
      (c :: p.1, p.2)

/-- Value of a run of decimal digit characters. -/
def digitsVal (cs : List Char) : Nat :=
  cs.foldl (fun a c => a * 10 + (c.toNat - 48)) 0

/-- Modelled from the spec: parsing one whitespace-delimited numeric token
of the file strategy as a floating-point value (represented exactly over
ℚ): optional sign, nonempty integer digits, optional decimal point with
fraction digits; any other shape is a parse error. -/
def parseFloatToken (cs0 : List Char) : Option ℚ :=
  let neg := match cs0 with
    | '-' :: _ => true
    | _ => false
  let cs := match cs0 with
    | '-' :: rest => rest
    | '+' :: rest => rest
    | _ => cs0
  let p := breakAtDot cs
  let ip := p.1
  let fp := (p.2).getD []
  if ip.isEmpty then none
  else if ip.all Char.isDigit && fp.all Char.isDigit then
    let v : ℚ := (digitsVal ip : ℚ) + (digitsVal fp : ℚ) / (10 : ℚ) ^ fp.length
    some (if neg then -v else v)
  else none

/-- Parse every token in order, failing if any token fails. -/
def parseAllTokens : List (List Char) → Option (List ℚ)
  | [] => some []
  | t :: rest =>
    match parseFloatToken t, parseAllTokens rest with
    | some v, some vs => some (v :: vs)
    | _, _ => none

/-- Modelled from the spec: the file strategy of the workload generator
(not present under src/): read a header line containing `n`, then read all
remaining whitespace-delimited numeric tokens into the condensed buffer in
order, until exhausted. -/
def parseWorkloadFile (content : String) : Option (Nat × List ℚ) :=
  let p := breakAtNewline content.data
  match parseUsizeChars p.1 with
  | none => none
  | some n =>
    match parseAllTokens (splitWsAux p.2 []) with
    | none => none
    | some vals => some (n, vals)

lemma trialEvents_snd (method : String) (rule : Method) (buffer : List ℚ) (d : Nat)
    (h : method = "chain" → (Method.intoMethodChain rule).isSome) :
    (trialEvents method rule buffer d).2 = some d := by
  unfold trialEvents
  split_ifs with h1 h2
  · rfl
  · obtain ⟨mc, hmc⟩ := Option.isSome_iff_exists.mp (h h2)
    rw [hmc]
  · rfl

lemma trialEvents_fst_ok (method : String) (rule : Method) (buffer : List ℚ) (d : Nat)
    (h : method = "chain" → (Method.intoMethodChain rule).isSome) :
    ∃ e, (trialEvents method rule buffer d).1 =
      [Event.genBuffer buffer.length, Event.timerStart, Event.invoke e, Event.timerStop d] := by
  unfold trialEvents
  split_ifs with h1 h2
  · exact ⟨EntryPoint.mst, rfl⟩
  · obtain ⟨mc, hmc⟩ := Option.isSome_iff_exists.mp (h h2)
    rw [hmc]
    exact ⟨EntryPoint.nnchain, rfl⟩
  · exact ⟨EntryPoint.generic, rfl⟩

lemma trialEvents_no_output (method : String) (rule : Method) (buffer : List ℚ) (d : Nat) :
    (trialEvents method rule buffer d).1.filterMap outputLine = [] := by
  unfold trialEvents
  split_ifs with h1 h2
  · simp [outputLine]
  · cases hmc : Method.intoMethodChain rule <;> simp [outputLine]
  · simp [outputLine]

lemma runTrialsAux_snd (method : String) (rule : Method) (cs : Nat)
    (draws : Nat → Nat → ℚ) (durations : Nat → Nat)
    (h : method = "chain" → (Method.intoMethodChain rule).isSome) :
    ∀ (k i : Nat), (runTrialsAux method rule cs draws durations i k).2 =
      some (durationsList durations i k) := by
  intro k
  induction k with
  | zero => intro i; rfl
  | succ k ih =>
    intro i
    simp only [runTrialsAux]
    rw [trialEvents_snd _ _ _ _ h]
    simp only [ih (i + 1), Option.map_some]
    rfl

lemma runTrialsAux_no_output (method : String) (rule : Method) (cs : Nat)
    (draws : Nat → Nat → ℚ) (durations : Nat → Nat) :
    ∀ (k i : Nat), (runTrialsAux method rule cs draws durations i k).1.filterMap outputLine = [] := by
  intro k
  induction k with
  | zero => intro i; rfl
  | succ k ih =>
    intro i
    simp only [runTrialsAux]
    cases hres : (trialEvents method rule (generateCondensed cs (draws i)) (durations i)).2 with
    | none => simpa using trialEvents_no_output method rule _ (durations i)
    | some d =>
      simp only [List.filterMap_append, trialEvents_no_output, ih (i + 1), List.append_nil]

lemma listMin_eq_none (l : List Nat) (h : listMin l = none) : l = [] := by
  cases l with
  | nil => rfl
  | cons a t =>
    exfalso
    cases ht : listMin t <;> simp [listMin, ht] at h

lemma listMin_isSome (a : Nat) (l : List Nat) : ∃ m, listMin (a :: l) = some m := by
  cases ht : listMin l <;> simp [listMin, ht]

lemma listMin_le (l : List Nat) : ∀ m, listMin l = some m → ∀ x ∈ l, m ≤ x := by
  induction l with
  | nil => intro m hm x hx; cases hx
  | cons a t ih =>
    intro m hm x hx
    cases ht : listMin t with
    | none =>
      have : t = [] := listMin_eq_none t ht
      subst this
      simp [listMin] at hm
      rcases List.mem_cons.mp hx with hx | hx
      · omega
      · cases hx
    | some m' =>
      simp [listMin, ht] at hm
      rcases List.mem_cons.mp hx with hx | hx
      · subst hm; subst hx; exact min_le_left _ _
      · subst hm
        exact le_trans (min_le_right _ _) (ih m' ht x hx)

lemma durationsList_mem (durations : Nat → Nat) :
    ∀ (k i j : Nat), j < k → durations (i + j) ∈ durationsList durations i k := by
  intro k
  induction k with
  | zero => intro i j hj; omega
  | succ k ih =>
    intro i j hj
    cases j with
    | zero => simp [durationsList]
    | succ j =>
      have := ih (i + 1) j (by omega)
      simp only [durationsList, List.mem_cons]
      right
      have harith : i + 1 + j = i + (j + 1) := by omega
      rwa [harith] at this

lemma foldl_push_length (draws : Nat → ℚ) :
    ∀ (l : List Nat) (acc : List ℚ),
      (l.foldl (fun buf i => buf ++ [draws i]) acc).length = acc.length + l.length := by
  intro l
  induction l with
  | nil => intro acc; simp
  | cons a t ih =>
    intro acc
    simp only [List.foldl_cons, ih, List.length_append, List.length_cons]
    simp
    omega

lemma generateCondensed_length (cs : Nat) (draws : Nat → ℚ) :
    (generateCondensed cs draws).length = cs := by
  unfold generateCondensed
  rw [foldl_push_length]
  simp

/-- C1: for every valid rule/family combination, the dispatch match of a
trial invokes exactly one algorithm entry point, selected by the family
keyword: "mst" invokes the mst entry point, "chain" invokes the nnchain
entry point, and any other method string invokes the generic entry
point. -/
theorem dispatch_selects_exactly_one_entry (method : String) (rule : Method)
    (buffer : List ℚ) (d : Nat)
    (h : method = "chain" → (Method.intoMethodChain rule).isSome) :
    (trialEvents method rule buffer d).1.filterMap invokedEntry =
      [if method = "mst" then EntryPoint.mst
       else if method = "chain" then EntryPoint.nnchain
       else EntryPoint.generic] := by
  unfold trialEvents
  split_ifs with h1 h2
  · simp [invokedEntry]
  · obtain ⟨mc, hmc⟩ := Option.isSome_iff_exists.mp (h h2)
    rw [hmc]
    simp [invokedEntry]
  · simp [invokedEntry]

theorem dispatch_selects_exactly_one_entry_witness :
    (trialEvents "mst" Method.ward [] 5).1.filterMap invokedEntry =
      [if "mst" = "mst" then EntryPoint.mst
       else if "mst" = "chain" then EntryPoint.nnchain
       else EntryPoint.generic] :=
  dispatch_selects_exactly_one_entry "mst" Method.ward [] 5 (by decide)

/-- C2 (counterexample): with family "chain" and the chain-incompatible
rule centroid, the run does fail, but its trace already contains the
timer-start event of the first trial: the failure happens inside the
timing loop after the timer has started, not at dispatch resolution time
before it. -/
theorem chain_incompatible_panic_after_timer_start :
    (runTrialsAux "chain" Method.centroid 3 (fun _ _ => 0) (fun _ => 5) 0 2).2 = none ∧
    (runTrialsAux "chain" Method.centroid 3 (fun _ _ => 0) (fun _ => 5) 0 2).1 =
      [Event.genBuffer 3, Event.timerStart] := by
  decide

/-- C2 (amended): if the configured family is "chain" and the configured
rule has no chain-compatible equivalent, the run fails during the first
trial of the timing loop, after that trial's buffer is materialized and
its timer has started, but before any algorithm invocation or timer stop;
no trial duration is recorded. -/
theorem chain_incompatible_fails_inside_first_trial (rule : Method) (cs : Nat)
    (draws : Nat → Nat → ℚ) (durations : Nat → Nat) (k : Nat)
    (hk : 0 < k) (h : Method.intoMethodChain rule = none) :
    (runTrialsAux "chain" rule cs draws durations 0 k).2 = none ∧
    (runTrialsAux "chain" rule cs draws durations 0 k).1 =
      [Event.genBuffer (generateCondensed cs (draws 0)).length, Event.timerStart] ∧
    ∀ d, Event.timerStop d ∉ (runTrialsAux "chain" rule cs draws durations 0 k).1 := by
  cases k with
  | zero => omega
  | succ k =>
    have htr : trialEvents "chain" rule (generateCondensed cs (draws 0)) (durations 0) =
        ([Event.genBuffer (generateCondensed cs (draws 0)).length, Event.timerStart], none) := by
      simp [trialEvents, h]
    refine ⟨?_, ?_, ?_⟩
    · simp only [runTrialsAux, htr]
    · simp only [runTrialsAux, htr]
    · intro d
      simp only [runTrialsAux, htr]
      simp

theorem chain_incompatible_fails_inside_first_trial_witness :
    (runTrialsAux "chain" Method.median 3 (fun _ _ => 0) (fun _ => 9) 0 4).2 = none ∧
    (runTrialsAux "chain" Method.median 3 (fun _ _ => 0) (fun _ => 9) 0 4).1 =
      [Event.genBuffer (generateCondensed 3 ((fun _ _ => (0 : ℚ)) 0)).length, Event.timerStart] ∧
    ∀ d, Event.timerStop d ∉ (runTrialsAux "chain" Method.median 3 (fun _ _ => 0) (fun _ => 9) 0 4).1 :=
  chain_incompatible_fails_inside_first_trial Method.median 3 (fun _ _ => 0) (fun _ => 9) 4
    (by decide) (by decide)

/-- C3: in every trial, the trace is exactly buffer materialization, then
timer start, then the single algorithm invocation, then timer stop: the
buffer construction lies outside the measured window and only the
algorithm call lies inside it. -/
theorem timer_window_contains_only_algorithm (method : String) (rule : Method)
    (buffer : List ℚ) (d : Nat)
    (h : method = "chain" → (Method.intoMethodChain rule).isSome) :
    ∃ e, (trialEvents method rule buffer d).1 =
        [Event.genBuffer buffer.length, Event.timerStart, Event.invoke e, Event.timerStop d] ∧
      (trialEvents method rule buffer d).2 = some d := by
  obtain ⟨e, he⟩ := trialEvents_fst_ok method rule buffer d h
  exact ⟨e, he, trialEvents_snd method rule buffer d h⟩

theorem timer_window_contains_only_algorithm_witness :
    ∃ e, (trialEvents "ward" Method.ward [0] 7).1 =
        [Event.genBuffer 1, Event.timerStart, Event.invoke e, Event.timerStop 7] ∧
      (trialEvents "ward" Method.ward [0] 7).2 = some 7 :=
  timer_window_contains_only_algorithm "ward" Method.ward [0] 7 (by decide)

/-- C4: the reported best duration is the minimum over all trial
durations: with one repeat it equals the single trial's duration, and for
any repeat count it is less than or equal to every individual trial's
duration and never negative. -/
theorem best_time_is_minimum_of_trials (method : String) (rule : Method) (cs : Nat)
    (draws : Nat → Nat → ℚ) (durations : Nat → Nat) (k : Nat)
    (hchain : method = "chain" → (Method.intoMethodChain rule).isSome)
    (hk : 0 < k) :
    ∃ b, bestTime method rule cs draws durations k = some b ∧
      (k = 1 → b = durations 0) ∧
      (∀ i, i < k → b ≤ durations i) ∧
      0 ≤ b := by
  have hsnd := runTrialsAux_snd method rule cs draws durations hchain k 0
  cases k with
  | zero => omega
  | succ k =>
    unfold bestTime
    rw [hsnd]
    obtain ⟨m, hm⟩ := listMin_isSome (durations 0) (durationsList durations 1 k)
    have hm' : listMin (durationsList durations 0 (k + 1)) = some m := by
      simpa [durationsList] using hm
    refine ⟨m, by simp [hm'], ?_, ?_, Nat.zero_le m⟩
    · intro h1
      have hk0 : k = 0 := by omega
      subst hk0
      have hone : listMin (durationsList durations 0 1) = some (durations 0) := by
        simp [durationsList, listMin]
      rw [hm'] at hone
      exact Option.some.inj hone
    · intro i hi
      have hmem : durations i ∈ durationsList durations 0 (k + 1) := by
        have := durationsList_mem durations (k + 1) 0 i hi
        simpa using this
      exact listMin_le _ m hm' _ hmem

theorem best_time_is_minimum_of_trials_witness :
    ∃ b, bestTime "ward" Method.ward 3 (fun _ _ => 0) (fun i => i + 3) 2 = some b ∧
      (2 = 1 → b = (fun i => i + 3) 0) ∧
      (∀ i, i < 2 → b ≤ (fun i => i + 3) i) ∧
      0 ≤ b :=
  best_time_is_minimum_of_trials "ward" Method.ward 3 (fun _ _ => 0) (fun i => i + 3) 2
    (by decide) (by decide)

/-- C5: if any environment override is present but unparseable (size or
repeats not a valid unsigned integer, or an unrecognized rule string),
configuration resolution fails and the run aborts with no workload
generated and no trial run: the trace is empty. -/
theorem malformed_override_aborts_run (env : String → Option String)
    (draws : Nat → Nat → ℚ) (durations : Nat → Nat)
    (h : (∃ v, env "BENCH_SIZE" = some v ∧ parseUsize v = none) ∨
         (∃ v, env "BENCH_REPEATS" = some v ∧ parseUsize v = none) ∨
         (∃ v, env "BENCH_RULE" = some v ∧ Method.fromStr v = none)) :
    resolveConfig env = none ∧
    runProgram env draws durations = ([], Outcome.configPanic) := by
  have hnone : resolveConfig env = none := by
    unfold resolveConfig
    rcases h with ⟨v, hv, hp⟩ | ⟨v, hv, hp⟩ | ⟨v, hv, hp⟩
    · have hs : resolveSize env = none := by simp [resolveSize, hv, hp]
      rw [hs]
    · have hs : resolveRepeats env = none := by simp [resolveRepeats, hv, hp]
      rw [hs]
      cases resolveSize env <;> rfl
    · have hs : resolveRule env = none := by simp [resolveRule, hv, hp]
      rw [hs]
      cases resolveSize env <;> cases resolveRepeats env <;> rfl
  refine ⟨hnone, ?_⟩
  unfold runProgram
  rw [hnone]

theorem malformed_override_aborts_run_witness :
    resolveConfig (fun k => if k = "BENCH_SIZE" then some "abc" else none) = none ∧
    runProgram (fun k => if k = "BENCH_SIZE" then some "abc" else none)
      (fun _ _ => 0) (fun _ => 0) = ([], Outcome.configPanic) :=
  malformed_override_aborts_run _ _ _ (Or.inl ⟨"abc", by decide, by decide⟩)

/-- C6 (counterexample): at n = 2^32 + 1 the usize product
n * (n - 1) wraps modulo 2^64, so the program's condensed buffer has
length 2^31, not n*(n-1)/2 = 2^63 + 2^31: the for-every-n ≥ 2 claim
fails where the 64-bit arithmetic overflows. -/
theorem synthetic_length_overflow_counterexample :
    (generateCondensed (condensedSize (2 ^ 32 + 1)) (fun _ => (0 : ℚ))).length ≠
      (2 ^ 32 + 1) * (2 ^ 32 + 1 - 1) / 2 := by
  rw [generateCondensed_length]
  decide

/-- C6 (amended): for every n ≥ 2 whose product n * (n - 1) fits in the
64-bit usize (no overflow), the synthetic workload strategy produces a
condensed buffer of length exactly n*(n-1)/2. -/
theorem synthetic_buffer_length (n : Nat) (draws : Nat → ℚ) (_h : 2 ≤ n)
    (hfit : n * (n - 1) < 2 ^ 64) :
    (generateCondensed (condensedSize n) draws).length = n * (n - 1) / 2 := by
  rw [generateCondensed_length]
  have h1 : n - 1 < 2 ^ 64 :=
    lt_of_le_of_lt (Nat.le_mul_of_pos_left (n - 1) (by omega)) hfit
  have hw : wrapSub n 1 = n - 1 := by
    unfold wrapSub
    have hsplit : n + 2 ^ 64 - 1 = (n - 1) + 2 ^ 64 := by omega
    rw [hsplit, Nat.add_mod_right]
    exact Nat.mod_eq_of_lt h1
  unfold condensedSize
  rw [hw, Nat.mod_eq_of_lt hfit]

theorem synthetic_buffer_length_witness :
    (generateCondensed (condensedSize 4) (fun _ => (0 : ℚ))).length = 4 * (4 - 1) / 2 :=
  synthetic_buffer_length 4 (fun _ => 0) (by decide) (by decide)

/-- C7: in file-driven mode the workload parser reads the observation
count from the first line and then all remaining whitespace-delimited
numeric tokens in order: on the file "3\n1.0 2.0\n3.0\n" it reads header
n = 3 and yields the condensed buffer [1.0, 2.0, 3.0] in that order. -/
theorem file_strategy_header_then_tokens :
    parseWorkloadFile "3\n1.0 2.0\n3.0\n" = some (3, [(1 : ℚ), 2, 3]) := by
  have htok1 : parseFloatToken ['1', '.', '0'] = some 1 := by
    have hr : parseFloatToken ['1', '.', '0'] =
        some ((digitsVal ['1'] : ℚ) + (digitsVal ['0'] : ℚ) / (10 : ℚ) ^ (1 : Nat)) := rfl
    rw [hr, show digitsVal ['1'] = 1 from by decide, show digitsVal ['0'] = 0 from by decide]
    norm_num
  have htok2 : parseFloatToken ['2', '.', '0'] = some 2 := by
    have hr : parseFloatToken ['2', '.', '0'] =
        some ((digitsVal ['2'] : ℚ) + (digitsVal ['0'] : ℚ) / (10 : ℚ) ^ (1 : Nat)) := rfl
    rw [hr, show digitsVal ['2'] = 2 from by decide, show digitsVal ['0'] = 0 from by decide]
    norm_num
  have htok3 : parseFloatToken ['3', '.', '0'] = some 3 := by
    have hr : parseFloatToken ['3', '.', '0'] =
        some ((digitsVal ['3'] : ℚ) + (digitsVal ['0'] : ℚ) / (10 : ℚ) ^ (1 : Nat)) := rfl
    rw [hr, show digitsVal ['3'] = 3 from by decide, show digitsVal ['0'] = 0 from by decide]
    norm_num
  have hsplit : splitWsAux ['1', '.', '0', ' ', '2', '.', '0', '\n', '3', '.', '0', '\n'] [] =
      [['1', '.', '0'], ['2', '.', '0'], ['3', '.', '0']] := by decide
  have hall : parseAllTokens [['1', '.', '0'], ['2', '.', '0'], ['3', '.', '0']] =
      some [(1 : ℚ), 2, 3] := by
    simp only [parseAllTokens, htok1, htok2, htok3]
  calc parseWorkloadFile "3\n1.0 2.0\n3.0\n"
      = (match parseAllTokens
            (splitWsAux ['1', '.', '0', ' ', '2', '.', '0', '\n', '3', '.', '0', '\n'] []) with
         | none => none
         | some vals => some ((3 : Nat), vals)) := rfl
    _ = some (3, [(1 : ℚ), 2, 3]) := by rw [hsplit, hall]

/-- C8: on success the process writes exactly one line to standard
output: the best trial duration converted from microseconds to
milliseconds by a division by 1000 and rendered with exactly 11
fractional digits; nothing else is emitted. -/
theorem reporter_single_line_output (env : String → Option String)
    (draws : Nat → Nat → ℚ) (durations : Nat → Nat) (c : Config)
    (hc : resolveConfig env = some c)
    (hchain : c.method = "chain" → (Method.intoMethodChain c.rule).isSome)
    (hk : 0 < c.repeats) :
    ∃ best,
      (runProgram env draws durations).2 = Outcome.ok (formatFixed11 best) ∧
      (runProgram env draws durations).1.filterMap outputLine = [formatFixed11 best] ∧
      (natDigitsFixed 11 (best % 1000 * 10 ^ 8)).length = 11 ∧
      formatFixed11 best =
        toString (best / 1000) ++ "." ++ String.mk (natDigitsFixed 11 (best % 1000 * 10 ^ 8)) ∧
      ((best / 1000 : Nat) : ℚ) + ((best % 1000 * 10 ^ 8 : Nat) : ℚ) / 10 ^ 11 =
        (best : ℚ) / 1000 := by
  have hsnd := runTrialsAux_snd c.method c.rule (condensedSize c.size) draws durations hchain
    c.repeats 0
  obtain ⟨k, hkk⟩ : ∃ k, c.repeats = k + 1 := ⟨c.repeats - 1, by omega⟩
  have hmin : ∃ m, listMin (durationsList durations 0 c.repeats) = some m := by
    rw [hkk]
    obtain ⟨m, hm⟩ := listMin_isSome (durations 0) (durationsList durations (0 + 1) k)
    exact ⟨m, by simpa [durationsList] using hm⟩
  obtain ⟨m, hm⟩ := hmin
  have hrun : runProgram env draws durations =
      ((runTrialsAux c.method c.rule (condensedSize c.size) draws durations 0 c.repeats).1 ++
        [Event.output (formatFixed11 m)], Outcome.ok (formatFixed11 m)) := by
    unfold runProgram runResolved
    rw [hc]
    dsimp only
    rw [hsnd]
    unfold finishRun
    dsimp only
    rw [hm]
  refine ⟨m, ?_, ?_, ?_, rfl, ?_⟩
  · rw [hrun]
  · rw [hrun]
    simp only [List.filterMap_append, runTrialsAux_no_output]
    simp [outputLine]
  · simp [natDigitsFixed]
  · have hdm : (1000 * (m / 1000) + m % 1000 : ℕ) = m := Nat.div_add_mod m 1000
    have hq : ((m : ℚ)) = 1000 * ((m / 1000 : Nat) : ℚ) + ((m % 1000 : Nat) : ℚ) := by
      exact_mod_cast (congrArg (fun x : ℕ => (x : ℚ)) hdm).symm
    rw [hq]
    push_cast
    field_simp
    ring

theorem reporter_single_line_output_witness :
    ∃ best,
      (runProgram
        (fun k => if k = "BENCH_SIZE" then some "3"
                  else if k = "BENCH_REPEATS" then some "2" else none)
        (fun _ _ => 0) (fun _ => 7)).2 = Outcome.ok (formatFixed11 best) ∧
      (runProgram
        (fun k => if k = "BENCH_SIZE" then some "3"
                  else if k = "BENCH_REPEATS" then some "2" else none)
        (fun _ _ => 0) (fun _ => 7)).1.filterMap outputLine = [formatFixed11 best] ∧
      (natDigitsFixed 11 (best % 1000 * 10 ^ 8)).length = 11 ∧
      formatFixed11 best =
        toString (best / 1000) ++ "." ++ String.mk (natDigitsFixed 11 (best % 1000 * 10 ^ 8)) ∧
      ((best / 1000 : Nat) : ℚ) + ((best % 1000 * 10 ^ 8 : Nat) : ℚ) / 10 ^ 11 =
        (best : ℚ) / 1000 :=
  reporter_single_line_output _ _ _ (Config.mk 3 2 Method.ward "generic")
    (by decide) (by decide) (by decide)

/-- C9: the resolver does not require a positive repeat count: with
BENCH_REPEATS set to "0" configuration succeeds with repeats = 0, the
timing loop runs zero trials, and the program aborts at the final
`.min().unwrap()` reduction with no duration line printed (the trace is
empty). -/
theorem zero_repeats_min_unwrap :
    resolveConfig (fun k => if k = "BENCH_REPEATS" then some "0" else none) =
      some (Config.mk 100 0 Method.ward "generic") ∧
    runProgram (fun k => if k = "BENCH_REPEATS" then some "0" else none)
      (fun _ _ => 0) (fun _ => 0) = ([], Outcome.minUnwrapPanic) := by
  constructor
  · decide
  · decide

/-- C10: the resolver does not enforce n ≥ 2: with BENCH_SIZE set to "1"
configuration succeeds, the condensed size evaluates to 0 and every trial
runs the algorithm on an empty buffer with a successful outcome; with
size 0, the subtraction size - 1 underflows: a panic under checked
arithmetic and wrap-around modulo 2^64 otherwise. -/
theorem size_invariants_not_enforced :
    resolveConfig
      (fun k => if k = "BENCH_SIZE" then some "1"
                else if k = "BENCH_REPEATS" then some "2" else none) =
      some (Config.mk 1 2 Method.ward "generic") ∧
    condensedSize 1 = 0 ∧
    runProgram
      (fun k => if k = "BENCH_SIZE" then some "1"
                else if k = "BENCH_REPEATS" then some "2" else none)
      (fun _ _ => 0) (fun _ => 5) =
      ([Event.genBuffer 0, Event.timerStart, Event.invoke EntryPoint.generic,
        Event.timerStop 5, Event.genBuffer 0, Event.timerStart,
        Event.invoke EntryPoint.generic, Event.timerStop 5,
        Event.output (formatFixed11 5)], Outcome.ok (formatFixed11 5)) ∧
    condensedSizeChecked 0 = none ∧
    condensedSizeWrapping 0 = 0 ∧
    wrapSub 0 1 = 2 ^ 64 - 1 := by
  refine ⟨by decide, rfl, by decide, by decide, by decide, by decide⟩
